import Mathlib

/-!
# To-do List browser extension: storage-backed CRUD protocol

A shallow embedding of `background.js` (the message handler of the service
worker), `popup.js` (`saveToDoItem`) and `options.js` (`displayTodos`,
`deleteTodo`, the Delete button wiring of `createTodoElement`, `escapeHtml`),
followed by the properties proved about them.

Asynchronous callbacks are run to completion in the order the source chains
them: `chrome.storage.local.get` hands the current value of the `todos` key to
its callback, `chrome.storage.local.set` replaces it.
-/

namespace TodoList

/-! ## Data model -/

/-- A JavaScript value as it occurs in the `id` position of a task or of a
request: a number (`Date.now()` yields an integer) or a string. -/
inductive JsVal where
  | num (n : Int)
  | str (s : String)
deriving DecidableEq, Repr

/-- The `===` operator on the values above: operands of different types are
never equal, operands of the same type are compared by value. -/
def JsVal.strictEq : JsVal → JsVal → Bool
  | .num a, .num b => decide (a = b)
  | .str a, .str b => decide (a = b)
  | _, _ => false

/-- The `!==` operator. -/
def JsVal.strictNe (a b : JsVal) : Bool := !(a.strictEq b)

/-- The object literal built by `saveToDoItem` (popup.js lines 80-88). -/
structure Todo where
  id : JsVal
  title : String
  url : String
  category : String
  notes : String
  createdAt : String
  completed : Bool
deriving DecidableEq, Repr

/-- The value kept under the key `todos` of `chrome.storage.local`; `none` is
`undefined` (the key was never written). -/
abbrev Store := Option (List Todo)

/-- The expression `result.todos || []`: an array, even an empty one, is truthy. -/
def orEmpty (todos : Option (List Todo)) : List Todo :=
  match todos with
  | some ts => ts
  | none => []

/-- The `updates` object of an `updateTodo` request, restricted to the fields a
task has; `none` means that the object has no such own property. -/
structure Updates where
  id : Option JsVal := none
  title : Option String := none
  url : Option String := none
  category : Option String := none
  notes : Option String := none
  createdAt : Option String := none
  completed : Option Bool := none
deriving DecidableEq, Repr

/-- The object spread `{ ...todo, ...updates }`: every property of `updates`
overwrites the property of the same name copied from `todo`. -/
def spread (todo : Todo) (updates : Updates) : Todo :=
  { id := updates.id.getD todo.id
    title := updates.title.getD todo.title
    url := updates.url.getD todo.url
    category := updates.category.getD todo.category
    notes := updates.notes.getD todo.notes
    createdAt := updates.createdAt.getD todo.createdAt
    completed := updates.completed.getD todo.completed }

/-- The method `Array.prototype.findIndex`; `none` stands for the result `-1`. -/
def findIndex (p : Todo → Bool) : List Todo → Option Nat
  | [] => none
  | t :: ts => if p t then some 0 else (findIndex p ts).map (· + 1)

/-- The assignment `todos[i] = f(todos[i])` for an index inside the array. -/
def modifyAt (f : Todo → Todo) : Nat → List Todo → List Todo
  | _, [] => []
  | 0, t :: ts => f t :: ts
  | n + 1, t :: ts => t :: modifyAt f n ts

/-! ## background.js: the `onMessage` listener -/

/-- The request objects the listener distinguishes by `request.action`. -/
inductive Request where
  | getTodos
  | deleteTodo (id : JsVal)
  | toggleTodo (id : JsVal)
  | updateTodo (id : JsVal) (updates : Updates)
  | other (action : String)
deriving DecidableEq, Repr

/-- The object passed to `sendResponse`; `none` is an absent property. -/
structure Response where
  todos : Option (List Todo) := none
  success : Option Bool := none
  completed : Option Bool := none
  todo : Option Todo := none
deriving DecidableEq, Repr

/-- The listener of background.js lines 19-85, run together with the storage
callbacks it starts: the store after the request and the response sent
(`none` when no branch matches and `sendResponse` is never called). -/
def onMessage (store : Store) : Request → Store × Option Response
  | .getTodos => (store, some { todos := some (orEmpty store) })
  | .deleteTodo todoId =>
    let todos := orEmpty store
    let updatedTodos := todos.filter (fun todo => todo.id.strictNe todoId)
    (some updatedTodos, some { success := some true })
  | .toggleTodo todoId =>
    let todos := orEmpty store
    match findIndex (fun todo => todo.id.strictEq todoId) todos with
    | some todoIndex =>
      let todos := modifyAt (fun t => { t with completed := !t.completed }) todoIndex todos
      (some todos, some { success := some true,
                          completed := todos[todoIndex]?.map Todo.completed })
    | none => (store, some { success := some false })
  | .updateTodo todoId updates =>
    let todos := orEmpty store
    match findIndex (fun todo => todo.id.strictEq todoId) todos with
    | some todoIndex =>
      let todos := modifyAt (fun t => spread t updates) todoIndex todos
      (some todos, some { success := some true, todo := todos[todoIndex]? })
    | none => (store, some { success := some false })
  | .other _ => (store, none)

/-! ## popup.js: `saveToDoItem` -/

/-- The code points `String.prototype.trim` strips: ECMAScript WhiteSpace
(TAB, VT, FF, SP, NBSP, ZWNBSP and the other space separators) and
LineTerminator (LF, CR, LS, PS). -/
def isWhiteSpace (c : Char) : Bool :=
  [0x9, 0xA, 0xB, 0xC, 0xD, 0x20, 0xA0, 0x1680, 0x2000, 0x2001, 0x2002, 0x2003,
   0x2004, 0x2005, 0x2006, 0x2007, 0x2008, 0x2009, 0x200A, 0x2028, 0x2029,
   0x202F, 0x205F, 0x3000, 0xFEFF].contains c.toNat

/-- The method `String.prototype.trim`: white space removed from both ends. -/
def trim (s : String) : String :=
  String.mk ((s.data.dropWhile isWhiteSpace).reverse.dropWhile isWhiteSpace).reverse

/-- The values of the four form controls read by `saveToDoItem`. -/
structure Form where
  title : String
  url : String
  category : String
  notes : String
deriving DecidableEq, Repr

/-- The two message elements of the popup: the text of `#error-message` and
the `style.display` of `#error-message` and `#success-message`. -/
structure PopupUi where
  errorText : String
  errorDisplay : String
  successDisplay : String
deriving DecidableEq, Repr

/-- The function `showError(message)`, popup.js lines 135-142. -/
def showError (message : String) (_ui : PopupUi) : PopupUi :=
  { errorText := "✗ " ++ message, errorDisplay := "block", successDisplay := "none" }

/-- The function `showSuccess()`, popup.js lines 123-129. -/
def showSuccess (ui : PopupUi) : PopupUi :=
  { ui with errorDisplay := "none", successDisplay := "block" }

/-- What one run of `saveToDoItem` does: `written` is the array handed to
`chrome.storage.local.set` (`none` when `set` is never called), `ui` the
message elements afterwards. -/
structure SaveResult where
  written : Option (List Todo)
  ui : PopupUi
deriving DecidableEq, Repr

/-- The function `saveToDoItem()`, popup.js lines 61-108. `now` is the value of `Date.now()`
and `isoNow` the value of `new Date().toISOString()` at the moment of the call;
`store` is what `chrome.storage.local.get` passes to the callback. -/
def saveToDoItem (form : Form) (now : Int) (isoNow : String) (store : Store)
    (ui : PopupUi) : SaveResult :=
  let title := trim form.title
  let url := trim form.url
  let category := form.category
  let notes := trim form.notes
  if category = "" then
    { written := none, ui := showError "Please select a category" ui }
  else if title = "" then
    { written := none, ui := showError "Title cannot be empty" ui }
  else
    let todoItem : Todo :=
      { id := .num now
        title := title
        url := url
        category := category
        notes := notes
        createdAt := isoNow
        completed := false }
    let todos := orEmpty store ++ [todoItem]
    { written := some todos, ui := showSuccess ui }

/-- The store after a run of `saveToDoItem`: replaced when `set` was called. -/
def storeAfterSave (store : Store) (r : SaveResult) : Store :=
  match r.written with
  | some todos => some todos
  | none => store

/-! ## options.js: the List View -/

/-- The two module variables of options.js. -/
structure ListView where
  allTodos : List Todo
  currentFilter : String
deriving DecidableEq, Repr

/-- The comparator `(a, b) => new Date(b.createdAt) - new Date(a.createdAt)`.
`dateValue s` is the time value of `new Date(s)` in milliseconds, `none` when
`s` does not parse (Invalid Date); the difference is then NaN, here `none`. -/
def sortCompare (dateValue : String → Option Int) (a b : Todo) : Option Int :=
  match dateValue b.createdAt, dateValue a.createdAt with
  | some tb, some ta => some (tb - ta)
  | _, _ => none

/-- The number `sort` takes from a call of its comparator: NaN counts as `+0`. -/
def sortOrder (v : Option Int) : Int :=
  match v with
  | some n => n
  | none => 0

/-- One insertion step of a stable sort: `x`, which preceded every element of
the list in the input, goes in front of the first element it does not have to
follow (the comparator's answer for `x` and that element is not positive). -/
def insertSorted (cmp : Todo → Todo → Option Int) (x : Todo) : List Todo → List Todo
  | [] => [x]
  | y :: ys =>
    if sortOrder (cmp x y) ≤ 0 then x :: y :: ys else y :: insertSorted cmp x ys

/-- The method `Array.prototype.sort(cmp)`, which ECMAScript requires to be
stable: elements the comparator does not tell apart keep their order. -/
def arraySort (cmp : Todo → Todo → Option Int) : List Todo → List Todo
  | [] => []
  | x :: xs => insertSorted cmp x (arraySort cmp xs)

/-- The function `displayTodos()`, options.js lines 38-67: the tasks for which an element is
appended to `#todo-list`, in order, and the module variables afterwards (under
the filter `all` the variable `filteredTodos` is `allTodos` itself, which
`sort` reorders in place). -/
def displayTodos (dateValue : String → Option Int) (v : ListView) : List Todo × ListView :=
  let filteredTodos :=
    if v.currentFilter = "all" then v.allTodos
    else v.allTodos.filter (fun todo => decide (todo.category = v.currentFilter))
  if filteredTodos.length = 0 then ([], v)
  else
    let sorted := arraySort (sortCompare dateValue) filteredTodos
    (sorted, if v.currentFilter = "all" then { v with allTodos := sorted } else v)

/-- The text a template literal interpolates for an id: a string as it is, an
integer in decimal notation. -/
def templateText : JsVal → String
  | .num n => toString n
  | .str s => s

/-- The argument of the call in the attribute
`onclick="deleteTodo('${todo.id}')"` written by `createTodoElement` (options.js
line 102): the interpolated text between quotes, a string literal. (For a number
id the text is digits and a sign only, so the literal is exactly that text.) -/
def deleteButtonArg (todo : Todo) : JsVal :=
  .str (templateText todo.id)

/-- The function `deleteTodo(todoId)`, options.js lines 170-191, with `confirmed` the answer
to the `confirm` prompt: the store and the module variables once the response
callback has run. -/
def deleteTodo (confirmed : Bool) (todoId : JsVal) (store : Store) (v : ListView) :
    Store × ListView :=
  if confirmed then
    match onMessage store (.deleteTodo todoId) with
    | (store1, some response) =>
      if response.success = some true then
        (store1, { v with allTodos := v.allTodos.filter (fun t => t.id.strictNe todoId) })
      else (store1, v)
    | (store1, none) => (store1, v)
  else (store, v)

/-- The `chrome.storage.onChanged` listener, options.js lines 316-322:
`allTodos = changes.todos.newValue || []`. -/
def onStorageChanged (newValue : Option (List Todo)) (v : ListView) : ListView :=
  { v with allTodos := orEmpty newValue }

/-- Clicking the Delete button that `createTodoElement` renders for `todo`. -/
def clickDelete (confirmed : Bool) (todo : Todo) (store : Store) (v : ListView) :
    Store × ListView :=
  deleteTodo confirmed (deleteButtonArg todo) store v

/-- The object `map` of `escapeHtml`: `none` for a character that is not a key. -/
def escapeMap (m : Char) : Option String :=
  if m = '&' then some "&amp;"
  else if m = '<' then some "&lt;"
  else if m = '>' then some "&gt;"
  else if m = Char.ofNat 34 then some "&quot;"
  else if m = Char.ofNat 39 then some "&#039;"
  else none

/-- The global replace with the class of the five keys of `map`: every
character of the class is replaced by its entry, every other one is copied. -/
def escapeChars : List Char → List Char
  | [] => []
  | c :: cs =>
    match escapeMap c with
    | some entity => entity.data ++ escapeChars cs
    | none => c :: escapeChars cs

/-- The function `escapeHtml(text)`, options.js lines 281-290. -/
def escapeHtml (text : String) : String :=
  String.mk (escapeChars text.data)

/-- The five entities `escapeHtml` writes. -/
def entities : List String :=
  ["&amp;", "&lt;", "&gt;", "&quot;", "&#039;"]

/-! ## Auxiliary facts about the array helpers -/

theorem strictEq_iff (a b : JsVal) : a.strictEq b = true ↔ a = b := by
  cases a <;> cases b <;> simp [JsVal.strictEq]

theorem strictNe_iff (a b : JsVal) : a.strictNe b = true ↔ a ≠ b := by
  simp [JsVal.strictNe, ← strictEq_iff]

theorem findIndex_eq_some {p : Todo → Bool} {l : List Todo} {i : Nat}
    (h : findIndex p l = some i) :
    ∃ t, l[i]? = some t ∧ p t = true ∧
      ∀ j, j < i → ∀ u, l[j]? = some u → p u = false := by
  induction l generalizing i with
  | nil => simp [findIndex] at h
  | cons x xs ih =>
    unfold findIndex at h
    by_cases hx : p x = true
    · simp only [hx, if_true, Option.some.injEq] at h
      subst h
      exact ⟨x, by simp, hx, fun j hj => absurd hj (Nat.not_lt_zero j)⟩
    · simp only [hx, Bool.false_eq_true, if_false, Option.map_eq_some'] at h
      obtain ⟨k, hk, rfl⟩ := h
      obtain ⟨t, ht, hpt, hlt⟩ := ih hk
      refine ⟨t, by simpa using ht, hpt, ?_⟩
      intro j hj u hu
      cases j with
      | zero =>
        simp only [List.getElem?_cons_zero, Option.some.injEq] at hu
        subst hu
        simpa using hx
      | succ j =>
        simp only [List.getElem?_cons_succ] at hu
        exact hlt j (by omega) u hu

theorem findIndex_of_mem {p : Todo → Bool} {l : List Todo} {t : Todo}
    (ht : t ∈ l) (hp : p t = true) : ∃ i, findIndex p l = some i := by
  induction l with
  | nil => simp at ht
  | cons x xs ih =>
    unfold findIndex
    by_cases hx : p x = true
    · exact ⟨0, by simp [hx]⟩
    · have hmem : t ∈ xs := by
        rcases List.mem_cons.mp ht with h | h
        · subst h; exact absurd hp hx
        · exact h
      obtain ⟨i, hi⟩ := ih hmem
      exact ⟨i + 1, by simp [hx, hi]⟩

theorem findIndex_eq_none {p : Todo → Bool} {l : List Todo}
    (h : ∀ t ∈ l, p t = false) : findIndex p l = none := by
  induction l with
  | nil => rfl
  | cons x xs ih =>
    unfold findIndex
    have hx : p x = false := h x (List.mem_cons_self x xs)
    simp [hx, ih (fun t ht => h t (List.mem_cons_of_mem x ht))]

theorem findIndex_modifyAt (p : Todo → Bool) (f : Todo → Todo)
    (hpf : ∀ t, p (f t) = p t) (i : Nat) (l : List Todo) :
    findIndex p (modifyAt f i l) = findIndex p l := by
  induction l generalizing i with
  | nil => cases i <;> rfl
  | cons x xs ih =>
    cases i with
    | zero => simp [modifyAt, findIndex, hpf]
    | succ i => simp [modifyAt, findIndex, ih]

theorem modifyAt_modifyAt (f g : Todo → Todo) (i : Nat) (l : List Todo) :
    modifyAt f i (modifyAt g i l) = modifyAt (fun t => f (g t)) i l := by
  induction l generalizing i with
  | nil => cases i <;> rfl
  | cons x xs ih =>
    cases i with
    | zero => simp [modifyAt]
    | succ i => simp [modifyAt, ih]

theorem modifyAt_of_fixes (f : Todo → Todo) (hf : ∀ t, f t = t) (i : Nat)
    (l : List Todo) : modifyAt f i l = l := by
  induction l generalizing i with
  | nil => cases i <;> rfl
  | cons x xs ih =>
    cases i with
    | zero => simp [modifyAt, hf]
    | succ i => simp [modifyAt, ih]

theorem length_modifyAt (f : Todo → Todo) (i : Nat) (l : List Todo) :
    (modifyAt f i l).length = l.length := by
  induction l generalizing i with
  | nil => cases i <;> rfl
  | cons x xs ih =>
    cases i with
    | zero => simp [modifyAt]
    | succ i => simp [modifyAt, ih]

theorem modifyAt_getElem_same (f : Todo → Todo) (i : Nat) (l : List Todo) :
    (modifyAt f i l)[i]? = l[i]?.map f := by
  induction l generalizing i with
  | nil => cases i <;> rfl
  | cons x xs ih =>
    cases i with
    | zero => simp [modifyAt]
    | succ i => simp [modifyAt, ih]

theorem modifyAt_getElem_other (f : Todo → Todo) (i j : Nat) (l : List Todo)
    (h : j ≠ i) : (modifyAt f i l)[j]? = l[j]? := by
  induction l generalizing i j with
  | nil => cases i <;> rfl
  | cons x xs ih =>
    cases i with
    | zero =>
      cases j with
      | zero => exact absurd rfl h
      | succ j => simp [modifyAt]
    | succ i =>
      cases j with
      | zero => simp [modifyAt]
      | succ j => simp [modifyAt, ih i j (by omega)]

theorem orEmpty_some (ts : List Todo) : orEmpty (some ts) = ts := rfl

theorem store_eq_some_of_mem {store : Store} {t : Todo} (h : t ∈ orEmpty store) :
    store = some (orEmpty store) := by
  cases store with
  | none => simp [orEmpty] at h
  | some ts => rfl

/-- The first task with the requested id and its index, for an id that occurs. -/
theorem findIndex_of_present {todos : List Todo} {id : JsVal}
    (h : ∃ t ∈ todos, t.id = id) :
    ∃ i t, findIndex (fun todo => todo.id.strictEq id) todos = some i ∧
      todos[i]? = some t ∧ t.id = id ∧
      ∀ j, j < i → ∀ u, todos[j]? = some u → u.id ≠ id := by
  obtain ⟨t0, ht0, hid0⟩ := h
  obtain ⟨i, hi⟩ := findIndex_of_mem (p := fun todo => todo.id.strictEq id) ht0
    ((strictEq_iff _ _).mpr hid0)
  obtain ⟨t, ht, hpt, hlt⟩ := findIndex_eq_some hi
  refine ⟨i, t, hi, ht, (strictEq_iff _ _).mp hpt, ?_⟩
  intro j hj u hu hne
  have := hlt j hj u hu
  rw [(strictEq_iff _ _).mpr hne] at this
  exact Bool.noConfusion this

/-! ## background.js: delete, toggle, update -/

/-- C1: after the `deleteTodo` handler has run for an id, `getTodos` answers
with the previous collection from which exactly the tasks with that id are
removed, the others kept in their order; no task of the answer has the id. -/
theorem deleteTodo_then_getTodos (store : Store) (id : JsVal) :
    ∃ ts, (onMessage (onMessage store (.deleteTodo id)).1 .getTodos).2
        = some { todos := some ts } ∧
      ts = (orEmpty store).filter (fun t => decide (t.id ≠ id)) ∧
      ∀ t ∈ ts, t.id ≠ id := by
  refine ⟨(orEmpty store).filter (fun t => decide (t.id ≠ id)), ?_, rfl, ?_⟩
  · have hfun : (fun todo : Todo => todo.id.strictNe id)
        = (fun t : Todo => decide (t.id ≠ id)) := by
      funext t
      by_cases h : t.id = id
      · have he : t.id.strictEq id = true := (strictEq_iff _ _).mpr h
        have hd : decide (t.id ≠ id) = false := by simp [h]
        rw [hd]
        simp only [JsVal.strictNe, he, Bool.not_true]
      · have hne : t.id.strictNe id = true := (strictNe_iff _ _).mpr h
        simp [hne, h]
    simp only [onMessage, orEmpty, hfun]
  · intro t ht
    simpa using (List.mem_filter.mp ht).2

/-- C2 (the code at an id no task has): on the empty collection the
`deleteTodo` handler answers `success: true`, as it does on every input. -/
theorem deleteTodo_absent_id_reports_success :
    (onMessage (some []) (.deleteTodo (.num 1))).2 = some { success := some true } ∧
    (onMessage none (.deleteTodo (.num 1))).2 = some { success := some true } ∧
    (onMessage (onMessage (some [⟨.num 1, "a", "", "work", "", "t", false⟩])
        (.deleteTodo (.num 1))).1 (.deleteTodo (.num 1))).2
      = some { success := some true } := by
  refine ⟨rfl, rfl, rfl⟩

/-- The `deleteTodo` handler sends the same response whatever the store holds. -/
theorem deleteTodo_success_always (store : Store) (id : JsVal) :
    (onMessage store (.deleteTodo id)).2 = some { success := some true } := rfl

/-- C3: for an id that occurs, two `toggleTodo` requests in a row answer with
the negated and then with the original `completed` value of the first task
with that id, flip that task in between, and leave the store as it was. -/
theorem toggleTodo_twice (store : Store) (id : JsVal)
    (h : ∃ t ∈ orEmpty store, t.id = id) :
    ∃ (i : Nat) (t : Todo), (orEmpty store)[i]? = some t ∧ t.id = id ∧
      (∀ j, j < i → ∀ u, (orEmpty store)[j]? = some u → u.id ≠ id) ∧
      (onMessage store (.toggleTodo id)).2
        = some { success := some true, completed := some (!t.completed) } ∧
      (orEmpty (onMessage store (.toggleTodo id)).1)[i]?
        = some { t with completed := !t.completed } ∧
      (onMessage (onMessage store (.toggleTodo id)).1 (.toggleTodo id)).2
        = some { success := some true, completed := some t.completed } ∧
      (orEmpty (onMessage (onMessage store (.toggleTodo id)).1 (.toggleTodo id)).1)[i]?
        = some t ∧
      (onMessage (onMessage store (.toggleTodo id)).1 (.toggleTodo id)).1 = store := by
  obtain ⟨i, t, hi, ht, hid, hlt⟩ := findIndex_of_present h
  have hstore : store = some (orEmpty store) := by
    obtain ⟨t0, ht0, _⟩ := h
    exact store_eq_some_of_mem ht0
  have hinv : ∀ u : Todo, (fun todo : Todo => todo.id.strictEq id)
      ((fun t : Todo => { t with completed := !t.completed }) u)
      = (fun todo : Todo => todo.id.strictEq id) u := fun _ => rfl
  have h1 : onMessage store (.toggleTodo id)
      = (some (modifyAt (fun t => { t with completed := !t.completed }) i (orEmpty store)),
         some { success := some true, completed := some (!t.completed) }) := by
    simp only [onMessage, hi, modifyAt_getElem_same, ht, Option.map_some']
  have hi2 : findIndex (fun todo => todo.id.strictEq id)
      (modifyAt (fun t => { t with completed := !t.completed }) i (orEmpty store))
      = some i := by
    rw [findIndex_modifyAt _ _ hinv]; exact hi
  have hback : modifyAt (fun t => { t with completed := !t.completed }) i
      (modifyAt (fun t => { t with completed := !t.completed }) i (orEmpty store))
      = orEmpty store := by
    rw [modifyAt_modifyAt]
    exact modifyAt_of_fixes _ (fun u => by simp) i _
  have h2 : onMessage (onMessage store (.toggleTodo id)).1 (.toggleTodo id)
      = (some (orEmpty store),
         some { success := some true, completed := some t.completed }) := by
    rw [h1]
    simp only [onMessage, orEmpty_some, hi2, hback, ht, Option.map_some']
  refine ⟨i, t, ht, hid, hlt, ?_, ?_, ?_, ?_, ?_⟩
  · rw [h1]
  · rw [h1]; simp only [orEmpty_some, modifyAt_getElem_same, ht, Option.map_some']
  · rw [h2]
  · rw [h2]; simpa only [orEmpty_some] using ht
  · rw [h2]; exact hstore.symm

/-- Witness of C3: a two-task store, toggling the second task twice. -/
theorem toggleTodo_twice_witness :
    ∃ (i : Nat) (t : Todo), (orEmpty (some [⟨.num 1, "a", "", "work", "", "t1", false⟩,
                           ⟨.num 2, "b", "", "other", "", "t2", true⟩]))[i]? = some t ∧
      t.id = .num 2 ∧
      (onMessage (onMessage (some [⟨.num 1, "a", "", "work", "", "t1", false⟩,
                                   ⟨.num 2, "b", "", "other", "", "t2", true⟩])
          (.toggleTodo (.num 2))).1 (.toggleTodo (.num 2))).1
        = some [⟨.num 1, "a", "", "work", "", "t1", false⟩,
                ⟨.num 2, "b", "", "other", "", "t2", true⟩] := by
  obtain ⟨i, t, h1, h2, _, _, _, _, _, h8⟩ :=
    toggleTodo_twice (some [⟨.num 1, "a", "", "work", "", "t1", false⟩,
                            ⟨.num 2, "b", "", "other", "", "t2", true⟩]) (.num 2)
      ⟨⟨.num 2, "b", "", "other", "", "t2", true⟩, by simp [orEmpty], rfl⟩
  exact ⟨i, t, h1, h2, h8⟩

/-- What `updateTodo` does for an id that occurs: the first task with the id is
replaced, in place, by its spread with `updates`, and sent back. -/
theorem updateTodo_present (store : Store) (id : JsVal) (updates : Updates)
    (h : ∃ t ∈ orEmpty store, t.id = id) :
    ∃ (i : Nat) (t : Todo), (orEmpty store)[i]? = some t ∧ t.id = id ∧
      (∀ j, j < i → ∀ u, (orEmpty store)[j]? = some u → u.id ≠ id) ∧
      onMessage store (.updateTodo id updates)
        = (some (modifyAt (fun t => spread t updates) i (orEmpty store)),
           some { success := some true, todo := some (spread t updates) }) := by
  obtain ⟨i, t, hi, ht, hid, hlt⟩ := findIndex_of_present h
  refine ⟨i, t, ht, hid, hlt, ?_⟩
  simp only [onMessage, hi, modifyAt_getElem_same, ht, Option.map_some']

/-- C4: for an id that occurs, `updateTodo` with `updates = {title: X}` answers
`success: true` with a task whose title is `X` and whose other six fields are
those of the first task with that id; the answer takes that task's place in
the store, which keeps its length and every other entry. -/
theorem updateTodo_title_only (store : Store) (id : JsVal) (X : String)
    (h : ∃ t ∈ orEmpty store, t.id = id) :
    ∃ (i : Nat) (t t1 : Todo), (orEmpty store)[i]? = some t ∧ t.id = id ∧
      (∀ j, j < i → ∀ u, (orEmpty store)[j]? = some u → u.id ≠ id) ∧
      (onMessage store (.updateTodo id { title := some X })).2
        = some { success := some true, todo := some t1 } ∧
      t1.title = X ∧ t1.id = t.id ∧ t1.url = t.url ∧ t1.category = t.category ∧
      t1.notes = t.notes ∧ t1.createdAt = t.createdAt ∧ t1.completed = t.completed ∧
      (orEmpty (onMessage store (.updateTodo id { title := some X })).1)[i]? = some t1 ∧
      (orEmpty (onMessage store (.updateTodo id { title := some X })).1).length
        = (orEmpty store).length ∧
      ∀ j, j ≠ i →
        (orEmpty (onMessage store (.updateTodo id { title := some X })).1)[j]?
          = (orEmpty store)[j]? := by
  obtain ⟨i, t, ht, hid, hlt, hrun⟩ := updateTodo_present store id { title := some X } h
  refine ⟨i, t, spread t { title := some X }, ht, hid, hlt, ?_, rfl, rfl, rfl, rfl,
    rfl, rfl, rfl, ?_, ?_, ?_⟩
  · rw [hrun]
  · rw [hrun]; simp only [orEmpty_some, modifyAt_getElem_same, ht, Option.map_some']
  · rw [hrun]; simp only [orEmpty_some, length_modifyAt]
  · intro j hj
    rw [hrun]
    simp only [orEmpty_some, modifyAt_getElem_other _ _ _ _ hj]

/-- Witness of C4: retitling the second of two tasks. -/
theorem updateTodo_title_only_witness :
    ∃ (i : Nat) (t t1 : Todo), (orEmpty (some [⟨.num 1, "a", "", "work", "", "t1", false⟩,
                              ⟨.num 2, "b", "u", "other", "n", "t2", true⟩]))[i]? = some t ∧
      (onMessage (some [⟨.num 1, "a", "", "work", "", "t1", false⟩,
                        ⟨.num 2, "b", "u", "other", "n", "t2", true⟩])
          (.updateTodo (.num 2) { title := some "X" })).2
        = some { success := some true, todo := some t1 } ∧
      t1.title = "X" ∧ t1.id = t.id ∧ t1.createdAt = t.createdAt := by
  obtain ⟨i, t, t1, h1, _, _, h4, h5, h6, _, _, _, h10, _⟩ :=
    updateTodo_title_only (some [⟨.num 1, "a", "", "work", "", "t1", false⟩,
                                 ⟨.num 2, "b", "u", "other", "n", "t2", true⟩]) (.num 2) "X"
      ⟨⟨.num 2, "b", "u", "other", "n", "t2", true⟩, by simp [orEmpty], rfl⟩
  exact ⟨i, t, t1, h1, h4, h5, h6, h10⟩

/-- C5 fails as stated: an `updates` object with its own `id` and `createdAt`
overwrites both fields of the matched task. -/
theorem updateTodo_overwrites_id_and_createdAt :
    (onMessage (some [⟨.num 1, "a", "", "work", "", "2024-01-01T00:00:00.000Z", false⟩])
        (.updateTodo (.num 1)
          { id := some (.num 2), createdAt := some "1999-12-31T00:00:00.000Z" })).1
      = some [⟨.num 2, "a", "", "work", "", "1999-12-31T00:00:00.000Z", false⟩] ∧
    JsVal.num 2 ≠ JsVal.num 1 ∧
    "1999-12-31T00:00:00.000Z" ≠ "2024-01-01T00:00:00.000Z" := by
  decide

/-- C5 as amended: for an id that occurs, `updateTodo` leaves the `id` of the
matched task as it was when `updates` has no `id` property and its `createdAt`
as it was when `updates` has no `createdAt` property. -/
theorem updateTodo_keeps_id_createdAt_unless_given (store : Store) (id : JsVal)
    (updates : Updates) (h : ∃ t ∈ orEmpty store, t.id = id) :
    ∃ (i : Nat) (t t1 : Todo), (orEmpty store)[i]? = some t ∧ t.id = id ∧
      (∀ j, j < i → ∀ u, (orEmpty store)[j]? = some u → u.id ≠ id) ∧
      (orEmpty (onMessage store (.updateTodo id updates)).1)[i]? = some t1 ∧
      (updates.id = none → t1.id = t.id) ∧
      (updates.createdAt = none → t1.createdAt = t.createdAt) := by
  obtain ⟨i, t, ht, hid, hlt, hrun⟩ := updateTodo_present store id updates h
  refine ⟨i, t, spread t updates, ht, hid, hlt, ?_, ?_, ?_⟩
  · rw [hrun]; simp only [orEmpty_some, modifyAt_getElem_same, ht, Option.map_some']
  · intro hnone; simp [spread, hnone]
  · intro hnone; simp [spread, hnone]

/-- Witness of the amended C5: an update of title and notes only. -/
theorem updateTodo_keeps_id_createdAt_unless_given_witness :
    ∃ (i : Nat) (t t1 : Todo), (orEmpty (some [⟨.num 1, "a", "", "work", "", "t1", false⟩]))[i]? = some t ∧
      (orEmpty (onMessage (some [⟨.num 1, "a", "", "work", "", "t1", false⟩])
        (.updateTodo (.num 1) { title := some "b", notes := some "n" })).1)[i]? = some t1 ∧
      t1.id = t.id ∧ t1.createdAt = t.createdAt := by
  obtain ⟨i, t, t1, h1, _, _, h4, h5, h6⟩ :=
    updateTodo_keeps_id_createdAt_unless_given
      (some [⟨.num 1, "a", "", "work", "", "t1", false⟩]) (.num 1)
      { title := some "b", notes := some "n" }
      ⟨⟨.num 1, "a", "", "work", "", "t1", false⟩, by simp [orEmpty], rfl⟩
  exact ⟨i, t, t1, h1, h4, h5 rfl, h6 rfl⟩

/-! ## popup.js: validation and creation -/

/-- A submission that passes both checks: the array written is the stored one
with a single task appended, built from the trimmed fields and the two clock
readings, not completed. -/
theorem saveToDoItem_valid (form : Form) (now : Int) (isoNow : String)
    (store : Store) (ui : PopupUi) (hc : form.category ≠ "")
    (ht : trim form.title ≠ "") :
    (saveToDoItem form now isoNow store ui).written
      = some (orEmpty store ++
          [{ id := .num now, title := trim form.title, url := trim form.url,
             category := form.category, notes := trim form.notes,
             createdAt := isoNow, completed := false }]) := by
  simp [saveToDoItem, hc, ht]

/-- The ids of the array written by a valid submission are pairwise distinct
exactly when the clock reading is not already the id of a stored task. -/
theorem saveToDoItem_ids_nodup_iff (form : Form) (now : Int) (isoNow : String)
    (store : Store) (ui : PopupUi) (hc : form.category ≠ "")
    (ht : trim form.title ≠ "")
    (hnd : ((orEmpty store).map Todo.id).Nodup) :
    (∀ todos, (saveToDoItem form now isoNow store ui).written = some todos →
      ((todos.map Todo.id).Nodup ↔ JsVal.num now ∉ (orEmpty store).map Todo.id)) := by
  intro todos hw
  rw [saveToDoItem_valid form now isoNow store ui hc ht] at hw
  have hw2 := Option.some.inj hw
  subst hw2
  rw [List.map_append, List.nodup_append]
  simp only [List.map_cons, List.map_nil, List.nodup_cons, List.not_mem_nil,
    not_false_eq_true, List.nodup_nil, and_self, true_and, hnd]
  constructor
  · intro hdis hmem
    exact hdis hmem (List.mem_singleton_self _)
  · intro hnot a ha hb
    rw [List.mem_singleton] at hb
    subst hb
    exact hnot ha

/-- C6 (the code at a clock reading that repeats): with a task of id
1700000000000 stored, a valid submission made while `Date.now()` is
1700000000000 writes two tasks with that id, so the ids of the written
collection are not pairwise distinct. -/
theorem saveToDoItem_repeats_id :
    (saveToDoItem ⟨"Buy milk", "https://b.example/", "shopping", ""⟩ 1700000000000
        "2023-11-14T22:13:20.000Z"
        (some [⟨.num 1700000000000, "Read", "https://a.example/", "work", "",
                "2023-11-14T22:13:20.000Z", false⟩])
        ⟨"", "none", "none"⟩).written
      = some [⟨.num 1700000000000, "Read", "https://a.example/", "work", "",
               "2023-11-14T22:13:20.000Z", false⟩,
              ⟨.num 1700000000000, "Buy milk", "https://b.example/", "shopping", "",
               "2023-11-14T22:13:20.000Z", false⟩] ∧
    ([(⟨.num 1700000000000, "Read", "https://a.example/", "work", "",
        "2023-11-14T22:13:20.000Z", false⟩ : Todo)].map Todo.id).Nodup ∧
    ¬ ([(⟨.num 1700000000000, "Read", "https://a.example/", "work", "",
          "2023-11-14T22:13:20.000Z", false⟩ : Todo),
        ⟨.num 1700000000000, "Buy milk", "https://b.example/", "shopping", "",
          "2023-11-14T22:13:20.000Z", false⟩].map Todo.id).Nodup := by
  refine ⟨by decide, by decide, by decide⟩

/-- C7: with an empty category `saveToDoItem` shows "Please select a category"
and never calls `set`, whatever the title; with a category and a title that is
empty after trimming it shows "Title cannot be empty" and never calls `set`;
when it calls `set`, both checks have passed and the array written is the
stored one plus one task whose category and trimmed title are not empty. -/
theorem saveToDoItem_validation (form : Form) (now : Int) (isoNow : String)
    (store : Store) (ui : PopupUi) :
    (form.category = "" →
      (saveToDoItem form now isoNow store ui).written = none ∧
      (saveToDoItem form now isoNow store ui).ui.errorText = "✗ Please select a category" ∧
      (saveToDoItem form now isoNow store ui).ui.errorDisplay = "block" ∧
      storeAfterSave store (saveToDoItem form now isoNow store ui) = store) ∧
    (form.category ≠ "" → trim form.title = "" →
      (saveToDoItem form now isoNow store ui).written = none ∧
      (saveToDoItem form now isoNow store ui).ui.errorText = "✗ Title cannot be empty" ∧
      (saveToDoItem form now isoNow store ui).ui.errorDisplay = "block" ∧
      storeAfterSave store (saveToDoItem form now isoNow store ui) = store) ∧
    (∀ todos, (saveToDoItem form now isoNow store ui).written = some todos →
      form.category ≠ "" ∧ trim form.title ≠ "" ∧
      ∃ t : Todo, todos = orEmpty store ++ [t] ∧ t.category = form.category ∧
        t.title = trim form.title ∧ t.category ≠ "" ∧ t.title ≠ "") := by
  refine ⟨?_, ?_, ?_⟩
  · intro hc
    have hrun : saveToDoItem form now isoNow store ui
        = { written := none, ui := showError "Please select a category" ui } := by
      simp [saveToDoItem, hc]
    rw [hrun]
    exact ⟨rfl, show "✗ " ++ "Please select a category" = _ by decide, rfl, rfl⟩
  · intro hc ht
    have hrun : saveToDoItem form now isoNow store ui
        = { written := none, ui := showError "Title cannot be empty" ui } := by
      simp [saveToDoItem, hc, ht]
    rw [hrun]
    exact ⟨rfl, show "✗ " ++ "Title cannot be empty" = _ by decide, rfl, rfl⟩
  · intro todos hw
    by_cases hc : form.category = ""
    · simp [saveToDoItem, hc] at hw
    · by_cases ht : trim form.title = ""
      · simp [saveToDoItem, hc, ht] at hw
      · rw [saveToDoItem_valid form now isoNow store ui hc ht] at hw
        exact ⟨hc, ht, _, (Option.some.inj hw).symm, rfl, rfl, hc, ht⟩

/-- Witness of C7: no category, then a blank title, then a valid form. -/
theorem saveToDoItem_validation_witness :
    (saveToDoItem ⟨"Buy milk", "", "", ""⟩ 5 "d" (some []) ⟨"", "none", "none"⟩).ui.errorText
      = "✗ Please select a category" ∧
    (saveToDoItem ⟨" \t ", "", "shopping", ""⟩ 5 "d" (some []) ⟨"", "none", "none"⟩).ui.errorText
      = "✗ Title cannot be empty" ∧
    (saveToDoItem ⟨" \t ", "", "shopping", ""⟩ 5 "d" (some []) ⟨"", "none", "none"⟩).written
      = none ∧
    (∃ t : Todo, [(⟨.num 5, "Buy milk", "", "shopping", "", "d", false⟩ : Todo)]
        = orEmpty (some []) ++ [t] ∧ t.title ≠ "") :=
  ⟨((saveToDoItem_validation ⟨"Buy milk", "", "", ""⟩ 5 "d" (some [])
      ⟨"", "none", "none"⟩).1 rfl).2.1,
   ((saveToDoItem_validation ⟨" \t ", "", "shopping", ""⟩ 5 "d" (some [])
      ⟨"", "none", "none"⟩).2.1 (by decide) (by decide)).2.1,
   ((saveToDoItem_validation ⟨" \t ", "", "shopping", ""⟩ 5 "d" (some [])
      ⟨"", "none", "none"⟩).2.1 (by decide) (by decide)).1,
   let h := (saveToDoItem_validation ⟨" Buy milk ", "", "shopping", ""⟩ 5 "d" (some [])
      ⟨"", "none", "none"⟩).2.2 [⟨.num 5, "Buy milk", "", "shopping", "", "d", false⟩]
      (by decide)
   h.2.2.imp (fun _ ht => ⟨ht.1, ht.2.2.2.2⟩)⟩

/-! ## options.js: the order of display -/

theorem insertSorted_perm (cmp : Todo → Todo → Option Int) (x : Todo) (l : List Todo) :
    (insertSorted cmp x l).Perm (x :: l) := by
  induction l with
  | nil => exact List.Perm.refl _
  | cons y ys ih =>
    unfold insertSorted
    by_cases hxy : sortOrder (cmp x y) ≤ 0
    · simp only [hxy, if_true]
      exact List.Perm.refl _
    · simp only [hxy, if_false]
      exact ((List.Perm.cons y ih).trans (List.Perm.swap x y ys))

theorem arraySort_perm (cmp : Todo → Todo → Option Int) (l : List Todo) :
    (arraySort cmp l).Perm l := by
  induction l with
  | nil => exact List.Perm.refl _
  | cons x xs ih =>
    exact (insertSorted_perm cmp x (arraySort cmp xs)).trans (List.Perm.cons x ih)

/-- Between two tasks whose dates parse the comparator answers the difference
of the time values. -/
theorem sortOrder_of_parsed (dateValue : String → Option Int) (tv : String → Int)
    (x y : Todo) (hx : dateValue x.createdAt = some (tv x.createdAt))
    (hy : dateValue y.createdAt = some (tv y.createdAt)) :
    sortOrder (sortCompare dateValue x y) = tv y.createdAt - tv x.createdAt := by
  simp [sortCompare, sortOrder, hx, hy]

theorem insertSorted_descending (dateValue : String → Option Int) (tv : String → Int)
    (x : Todo) (l : List Todo)
    (hx : dateValue x.createdAt = some (tv x.createdAt))
    (hl : ∀ t ∈ l, dateValue t.createdAt = some (tv t.createdAt))
    (h : l.Pairwise (fun a b => tv b.createdAt ≤ tv a.createdAt)) :
    (insertSorted (sortCompare dateValue) x l).Pairwise
      (fun a b => tv b.createdAt ≤ tv a.createdAt) := by
  induction l with
  | nil => simp [insertSorted]
  | cons y ys ih =>
    rw [List.pairwise_cons] at h
    have hy := hl y (List.mem_cons_self y ys)
    have hys : ∀ t ∈ ys, dateValue t.createdAt = some (tv t.createdAt) :=
      fun t ht => hl t (List.mem_cons_of_mem y ht)
    unfold insertSorted
    by_cases hxy : sortOrder (sortCompare dateValue x y) ≤ 0
    · simp only [hxy, if_true]
      have hyx : tv y.createdAt ≤ tv x.createdAt := by
        rw [sortOrder_of_parsed dateValue tv x y hx hy] at hxy; omega
      refine List.pairwise_cons.mpr ⟨?_, List.pairwise_cons.mpr h⟩
      intro z hz
      rcases List.mem_cons.mp hz with hzy | hzys
      · subst hzy; exact hyx
      · exact le_trans (h.1 z hzys) hyx
    · simp only [hxy, if_false]
      have hlt : tv x.createdAt ≤ tv y.createdAt := by
        rw [sortOrder_of_parsed dateValue tv x y hx hy] at hxy; omega
      refine List.pairwise_cons.mpr ⟨?_, ih hys h.2⟩
      intro z hz
      rcases List.mem_cons.mp ((insertSorted_perm _ x ys).mem_iff.mp hz) with hzx | hzys
      · subst hzx; exact hlt
      · exact h.1 z hzys

theorem arraySort_descending (dateValue : String → Option Int) (tv : String → Int)
    (l : List Todo) (hl : ∀ t ∈ l, dateValue t.createdAt = some (tv t.createdAt)) :
    (arraySort (sortCompare dateValue) l).Pairwise
      (fun a b => tv b.createdAt ≤ tv a.createdAt) := by
  induction l with
  | nil => simp [arraySort]
  | cons x xs ih =>
    have hxs : ∀ t ∈ xs, dateValue t.createdAt = some (tv t.createdAt) :=
      fun t ht => hl t (List.mem_cons_of_mem x ht)
    exact insertSorted_descending dateValue tv x _ (hl x (List.mem_cons_self x xs))
      (fun t ht => hxs t ((arraySort_perm _ xs).mem_iff.mp ht)) (ih hxs)

theorem insertSorted_filter_eq (dateValue : String → Option Int) (tv : String → Int)
    (k : Int) (x : Todo) (l : List Todo)
    (hx : dateValue x.createdAt = some (tv x.createdAt))
    (hl : ∀ t ∈ l, dateValue t.createdAt = some (tv t.createdAt)) :
    (insertSorted (sortCompare dateValue) x l).filter
        (fun t => decide (tv t.createdAt = k))
      = (x :: l).filter (fun t => decide (tv t.createdAt = k)) := by
  induction l with
  | nil => simp [insertSorted]
  | cons y ys ih =>
    have hy := hl y (List.mem_cons_self y ys)
    have hys : ∀ t ∈ ys, dateValue t.createdAt = some (tv t.createdAt) :=
      fun t ht => hl t (List.mem_cons_of_mem y ht)
    unfold insertSorted
    by_cases hxy : sortOrder (sortCompare dateValue x y) ≤ 0
    · simp only [hxy, if_true]
    · simp only [hxy, if_false]
      have hlt : tv x.createdAt < tv y.createdAt := by
        rw [sortOrder_of_parsed dateValue tv x y hx hy] at hxy; omega
      rw [List.filter_cons, ih hys]
      by_cases hxk : tv x.createdAt = k
      · have hyk : ¬ tv y.createdAt = k := by omega
        simp [List.filter_cons, hxk, hyk]
      · simp [List.filter_cons, hxk]

theorem arraySort_stable (dateValue : String → Option Int) (tv : String → Int)
    (k : Int) (l : List Todo)
    (hl : ∀ t ∈ l, dateValue t.createdAt = some (tv t.createdAt)) :
    (arraySort (sortCompare dateValue) l).filter
        (fun t => decide (tv t.createdAt = k))
      = l.filter (fun t => decide (tv t.createdAt = k)) := by
  induction l with
  | nil => rfl
  | cons x xs ih =>
    have hxs : ∀ t ∈ xs, dateValue t.createdAt = some (tv t.createdAt) :=
      fun t ht => hl t (List.mem_cons_of_mem x ht)
    unfold arraySort
    rw [insertSorted_filter_eq dateValue tv k x _ (hl x (List.mem_cons_self x xs))
        (fun t ht => hxs t ((arraySort_perm _ xs).mem_iff.mp ht)),
      List.filter_cons, List.filter_cons, ih hxs]

theorem displayTodos_rendered (dateValue : String → Option Int) (v : ListView) :
    (displayTodos dateValue v).1 = arraySort (sortCompare dateValue)
      (if v.currentFilter = "all" then v.allTodos
       else v.allTodos.filter (fun todo => decide (todo.category = v.currentFilter))) := by
  unfold displayTodos
  generalize (if v.currentFilter = "all" then v.allTodos
    else v.allTodos.filter (fun todo => decide (todo.category = v.currentFilter))) = l
  cases l with
  | nil => simp [arraySort]
  | cons x xs => simp

/-- What `displayTodos` does on a list in which every `createdAt` parses, `tv`
giving the time values: under a category filter `c` other than `all` it
renders a rearrangement of exactly the tasks whose category is `c`, in
descending order of the time value, the tasks of any one time value in the
order they have in `allTodos`; under `all` the same with every task. -/
theorem displayTodos_newest_first_of_parsed (dateValue : String → Option Int)
    (tv : String → Int) (allTodos : List Todo) (c : String)
    (hv : ∀ t ∈ allTodos, dateValue t.createdAt = some (tv t.createdAt)) :
    (c ≠ "all" →
      ((displayTodos dateValue ⟨allTodos, c⟩).1.Perm
          (allTodos.filter (fun t => decide (t.category = c))) ∧
        (displayTodos dateValue ⟨allTodos, c⟩).1.Pairwise
          (fun a b => tv b.createdAt ≤ tv a.createdAt) ∧
        ∀ k : Int,
          (displayTodos dateValue ⟨allTodos, c⟩).1.filter
              (fun t => decide (tv t.createdAt = k))
            = (allTodos.filter (fun t => decide (t.category = c))).filter
              (fun t => decide (tv t.createdAt = k)))) ∧
    ((displayTodos dateValue ⟨allTodos, "all"⟩).1.Perm allTodos ∧
      (displayTodos dateValue ⟨allTodos, "all"⟩).1.Pairwise
        (fun a b => tv b.createdAt ≤ tv a.createdAt) ∧
      ∀ k : Int,
        (displayTodos dateValue ⟨allTodos, "all"⟩).1.filter
            (fun t => decide (tv t.createdAt = k))
          = allTodos.filter (fun t => decide (tv t.createdAt = k))) := by
  constructor
  · intro hc
    have hf : ∀ t ∈ allTodos.filter (fun t => decide (t.category = c)),
        dateValue t.createdAt = some (tv t.createdAt) :=
      fun t ht => hv t (List.mem_filter.mp ht).1
    rw [displayTodos_rendered]
    simp only [hc, if_false]
    exact ⟨arraySort_perm _ _, arraySort_descending _ tv _ hf,
      fun k => arraySort_stable _ tv k _ hf⟩
  · rw [displayTodos_rendered]
    simp only [if_true]
    exact ⟨arraySort_perm _ _, arraySort_descending _ tv _ hv,
      fun k => arraySort_stable _ tv k _ hv⟩

/-- C8 (the code at a list with a `createdAt` that does not parse): with the
tasks of 2024-01-01, of `createdAt` "not a date" and of 2025-01-01 in this
order, every call of the comparator has the middle task as an operand and
answers NaN, so `sort` moves nothing: under the filter `all` and under the
filter `work` alike `displayTodos` renders the task of 2024 before the task of
2025, the older one first. -/
theorem displayTodos_unparsed_date_breaks_order :
    (displayTodos
        (fun s => if s = "2024-01-01T00:00:00.000Z" then some 1704067200000
          else if s = "2025-01-01T00:00:00.000Z" then some 1735689600000 else none)
        ⟨[⟨.num 1, "y2024", "", "work", "", "2024-01-01T00:00:00.000Z", false⟩,
          ⟨.num 2, "bad", "", "work", "", "not a date", false⟩,
          ⟨.num 3, "y2025", "", "work", "", "2025-01-01T00:00:00.000Z", false⟩],
         "all"⟩).1
      = [⟨.num 1, "y2024", "", "work", "", "2024-01-01T00:00:00.000Z", false⟩,
         ⟨.num 2, "bad", "", "work", "", "not a date", false⟩,
         ⟨.num 3, "y2025", "", "work", "", "2025-01-01T00:00:00.000Z", false⟩] ∧
    (displayTodos
        (fun s => if s = "2024-01-01T00:00:00.000Z" then some 1704067200000
          else if s = "2025-01-01T00:00:00.000Z" then some 1735689600000 else none)
        ⟨[⟨.num 1, "y2024", "", "work", "", "2024-01-01T00:00:00.000Z", false⟩,
          ⟨.num 2, "bad", "", "work", "", "not a date", false⟩,
          ⟨.num 3, "y2025", "", "work", "", "2025-01-01T00:00:00.000Z", false⟩],
         "work"⟩).1
      = [⟨.num 1, "y2024", "", "work", "", "2024-01-01T00:00:00.000Z", false⟩,
         ⟨.num 2, "bad", "", "work", "", "not a date", false⟩,
         ⟨.num 3, "y2025", "", "work", "", "2025-01-01T00:00:00.000Z", false⟩] ∧
    ¬ [(⟨.num 1, "y2024", "", "work", "", "2024-01-01T00:00:00.000Z", false⟩ : Todo),
       ⟨.num 3, "y2025", "", "work", "", "2025-01-01T00:00:00.000Z", false⟩].Pairwise
        (fun a b =>
          (if b.createdAt = "2024-01-01T00:00:00.000Z" then (1704067200000 : Int)
            else 1735689600000)
          ≤ (if a.createdAt = "2024-01-01T00:00:00.000Z" then (1704067200000 : Int)
            else 1735689600000)) := by
  refine ⟨by decide, by decide, by decide⟩

/-- The same three dates with the middle one replaced by a date that parses
(2024-07-01): `displayTodos` renders newest first. -/
theorem displayTodos_parsed_dates_newest_first :
    (displayTodos
        (fun s => if s = "2024-01-01T00:00:00.000Z" then some 1704067200000
          else if s = "2024-07-01T00:00:00.000Z" then some 1719792000000
          else if s = "2025-01-01T00:00:00.000Z" then some 1735689600000 else none)
        ⟨[⟨.num 1, "y2024", "", "work", "", "2024-01-01T00:00:00.000Z", false⟩,
          ⟨.num 2, "mid", "", "work", "", "2024-07-01T00:00:00.000Z", false⟩,
          ⟨.num 3, "y2025", "", "work", "", "2025-01-01T00:00:00.000Z", false⟩],
         "all"⟩).1
      = [⟨.num 3, "y2025", "", "work", "", "2025-01-01T00:00:00.000Z", false⟩,
         ⟨.num 2, "mid", "", "work", "", "2024-07-01T00:00:00.000Z", false⟩,
         ⟨.num 1, "y2024", "", "work", "", "2024-01-01T00:00:00.000Z", false⟩] := by
  decide

/-! ## options.js: the Delete button -/

/-- A request whose id is a string removes no task whose id is a number. -/
theorem filter_strictNe_str_keeps_num (s : String) (n : Int) (t : Todo)
    (l : List Todo) (hid : t.id = .num n) (ht : t ∈ l) :
    t ∈ l.filter (fun u => u.id.strictNe (.str s)) := by
  refine List.mem_filter.mpr ⟨ht, ?_⟩
  simp [hid, JsVal.strictNe, JsVal.strictEq]

/-- Clicking Delete on a rendered task whose id is a number, and confirming,
leaves that task in the store and in `allTodos`, also after the `onChanged`
listener has copied the store into `allTodos`. -/
theorem clickDelete_number_id_keeps_task (store : Store) (v : ListView) (t : Todo)
    (n : Int) (hid : t.id = .num n) (hs : t ∈ orEmpty store) (hv : t ∈ v.allTodos) :
    t ∈ orEmpty (clickDelete true t store v).1 ∧
    t ∈ (clickDelete true t store v).2.allTodos ∧
    t ∈ (onStorageChanged (clickDelete true t store v).1
          (clickDelete true t store v).2).allTodos := by
  have hrun : clickDelete true t store v
      = (some ((orEmpty store).filter (fun u => u.id.strictNe (.str (templateText t.id)))),
         { v with allTodos :=
            v.allTodos.filter (fun u => u.id.strictNe (.str (templateText t.id))) }) := by
    simp [clickDelete, deleteTodo, deleteButtonArg, onMessage]
  rw [hrun]
  refine ⟨?_, ?_, ?_⟩
  · exact filter_strictNe_str_keeps_num _ n t _ hid hs
  · exact filter_strictNe_str_keeps_num _ n t _ hid hv
  · exact filter_strictNe_str_keeps_num _ n t _ hid hs

/-- C9 (the code at a task created by the popup): with the task of id
1700000000000 stored and listed, the rendered Delete button calls `deleteTodo`
with the string "1700000000000"; after the confirmed click the store and
`allTodos` still hold the task and `displayTodos` renders it again, while the
same function called with the number id removes it from both. -/
theorem clickDelete_keeps_stored_task :
    deleteButtonArg ⟨.num 1700000000000, "Read", "https://a.example/", "work", "",
        "2023-11-14T22:13:20.000Z", false⟩ = .str "1700000000000" ∧
    clickDelete true
        ⟨.num 1700000000000, "Read", "https://a.example/", "work", "",
          "2023-11-14T22:13:20.000Z", false⟩
        (some [⟨.num 1700000000000, "Read", "https://a.example/", "work", "",
                "2023-11-14T22:13:20.000Z", false⟩])
        ⟨[⟨.num 1700000000000, "Read", "https://a.example/", "work", "",
           "2023-11-14T22:13:20.000Z", false⟩], "all"⟩
      = (some [⟨.num 1700000000000, "Read", "https://a.example/", "work", "",
                "2023-11-14T22:13:20.000Z", false⟩],
         ⟨[⟨.num 1700000000000, "Read", "https://a.example/", "work", "",
            "2023-11-14T22:13:20.000Z", false⟩], "all"⟩) ∧
    (displayTodos (fun _ => some 1700000000000)
        (clickDelete true
          ⟨.num 1700000000000, "Read", "https://a.example/", "work", "",
            "2023-11-14T22:13:20.000Z", false⟩
          (some [⟨.num 1700000000000, "Read", "https://a.example/", "work", "",
                  "2023-11-14T22:13:20.000Z", false⟩])
          ⟨[⟨.num 1700000000000, "Read", "https://a.example/", "work", "",
             "2023-11-14T22:13:20.000Z", false⟩], "all"⟩).2).1
      = [⟨.num 1700000000000, "Read", "https://a.example/", "work", "",
          "2023-11-14T22:13:20.000Z", false⟩] ∧
    deleteTodo true (.num 1700000000000)
        (some [⟨.num 1700000000000, "Read", "https://a.example/", "work", "",
                "2023-11-14T22:13:20.000Z", false⟩])
        ⟨[⟨.num 1700000000000, "Read", "https://a.example/", "work", "",
           "2023-11-14T22:13:20.000Z", false⟩], "all"⟩
      = (some [], ⟨[], "all"⟩) := by
  refine ⟨by decide, by decide, by decide, by decide⟩

/-! ## options.js: `escapeHtml` -/

theorem escapeMap_cases (c : Char) :
    (c = '&' ∧ escapeMap c = some "&amp;") ∨
    (c = '<' ∧ escapeMap c = some "&lt;") ∨
    (c = '>' ∧ escapeMap c = some "&gt;") ∨
    (c = Char.ofNat 34 ∧ escapeMap c = some "&quot;") ∨
    (c = Char.ofNat 39 ∧ escapeMap c = some "&#039;") ∨
    ((c ≠ '&' ∧ c ≠ '<' ∧ c ≠ '>' ∧ c ≠ Char.ofNat 34 ∧ c ≠ Char.ofNat 39) ∧
      escapeMap c = none) := by
  by_cases h1 : c = '&'
  · subst h1; exact Or.inl ⟨rfl, rfl⟩
  by_cases h2 : c = '<'
  · subst h2; exact Or.inr (Or.inl ⟨rfl, rfl⟩)
  by_cases h3 : c = '>'
  · subst h3; exact Or.inr (Or.inr (Or.inl ⟨rfl, rfl⟩))
  by_cases h4 : c = Char.ofNat 34
  · subst h4; exact Or.inr (Or.inr (Or.inr (Or.inl ⟨rfl, rfl⟩)))
  by_cases h5 : c = Char.ofNat 39
  · subst h5; exact Or.inr (Or.inr (Or.inr (Or.inr (Or.inl ⟨rfl, rfl⟩))))
  · refine Or.inr (Or.inr (Or.inr (Or.inr (Or.inr ⟨⟨h1, h2, h3, h4, h5⟩, ?_⟩))))
    simp [escapeMap, h1, h2, h3, h4, h5]

theorem escapeChars_of_entity (c : Char) (e : String) (cs : List Char)
    (h : escapeMap c = some e) : escapeChars (c :: cs) = e.data ++ escapeChars cs := by
  simp [escapeChars, h]

theorem escapeChars_of_plain (c : Char) (cs : List Char) (h : escapeMap c = none) :
    escapeChars (c :: cs) = c :: escapeChars cs := by
  simp [escapeChars, h]

/-- An ampersand inside `entity ++ rest` starts the entity or lies in `rest`. -/
theorem amp_after_entity (e : String) (hmem : e ∈ entities) (tl rest : List Char)
    (he : e.data = '&' :: tl) (htl : '&' ∉ tl)
    (ih : ∀ k, rest[k]? = some '&' → ∃ e1 ∈ entities, e1.data <+: rest.drop k)
    (i : Nat) (h : (e.data ++ rest)[i]? = some '&') :
    ∃ e1 ∈ entities, e1.data <+: (e.data ++ rest).drop i := by
  cases i with
  | zero => exact ⟨e, hmem, by simp⟩
  | succ k =>
    rw [he] at h ⊢
    simp only [List.cons_append, List.getElem?_cons_succ, List.drop_succ_cons] at h ⊢
    by_cases hk : k < tl.length
    · rw [List.getElem?_append_left hk] at h
      exact absurd (List.getElem?_mem h) htl
    · have hk2 : tl.length ≤ k := Nat.le_of_not_lt hk
      rw [List.getElem?_append_right hk2] at h
      obtain ⟨e1, he1, hp⟩ := ih _ h
      refine ⟨e1, he1, ?_⟩
      rw [List.drop_append_eq_append_drop, List.drop_eq_nil_of_le hk2]
      simpa using hp

theorem entity_no_markup :
    ∀ e ∈ entities, ∀ d ∈ e.data,
      d ≠ '<' ∧ d ≠ '>' ∧ d ≠ Char.ofNat 34 ∧ d ≠ Char.ofNat 39 := by
  decide

theorem escapeChars_no_markup (cs : List Char) :
    ∀ c ∈ escapeChars cs,
      c ≠ '<' ∧ c ≠ '>' ∧ c ≠ Char.ofNat 34 ∧ c ≠ Char.ofNat 39 := by
  induction cs with
  | nil => intro c hc; simp [escapeChars] at hc
  | cons x xs ih =>
    intro c hc
    have hent : ∀ e, e ∈ entities → c ∈ e.data ++ escapeChars xs →
        c ≠ '<' ∧ c ≠ '>' ∧ c ≠ Char.ofNat 34 ∧ c ≠ Char.ofNat 39 := by
      intro e he hmem
      rcases List.mem_append.mp hmem with hm | hm
      · exact entity_no_markup e he c hm
      · exact ih c hm
    rcases escapeMap_cases x with h | h | h | h | h | h
    · rw [escapeChars_of_entity x _ xs h.2] at hc
      exact hent _ (by decide) hc
    · rw [escapeChars_of_entity x _ xs h.2] at hc
      exact hent _ (by decide) hc
    · rw [escapeChars_of_entity x _ xs h.2] at hc
      exact hent _ (by decide) hc
    · rw [escapeChars_of_entity x _ xs h.2] at hc
      exact hent _ (by decide) hc
    · rw [escapeChars_of_entity x _ xs h.2] at hc
      exact hent _ (by decide) hc
    · rw [escapeChars_of_plain x xs h.2] at hc
      rcases List.mem_cons.mp hc with hc | hc
      · rw [hc]; exact h.1.2
      · exact ih c hc

theorem escapeChars_amp_entity (cs : List Char) :
    ∀ i, (escapeChars cs)[i]? = some '&' →
      ∃ e ∈ entities, e.data <+: (escapeChars cs).drop i := by
  induction cs with
  | nil => intro i h; simp [escapeChars] at h
  | cons x xs ih =>
    intro i h
    rcases escapeMap_cases x with hx | hx | hx | hx | hx | hx
    · rw [escapeChars_of_entity x _ xs hx.2] at h ⊢
      exact amp_after_entity "&amp;" (by decide) _ _ rfl (by decide) ih i h
    · rw [escapeChars_of_entity x _ xs hx.2] at h ⊢
      exact amp_after_entity "&lt;" (by decide) _ _ rfl (by decide) ih i h
    · rw [escapeChars_of_entity x _ xs hx.2] at h ⊢
      exact amp_after_entity "&gt;" (by decide) _ _ rfl (by decide) ih i h
    · rw [escapeChars_of_entity x _ xs hx.2] at h ⊢
      exact amp_after_entity "&quot;" (by decide) _ _ rfl (by decide) ih i h
    · rw [escapeChars_of_entity x _ xs hx.2] at h ⊢
      exact amp_after_entity "&#039;" (by decide) _ _ rfl (by decide) ih i h
    · rw [escapeChars_of_plain x xs hx.2] at h ⊢
      cases i with
      | zero =>
        simp only [List.getElem?_cons_zero, Option.some.injEq] at h
        exact absurd h hx.1.1
      | succ k =>
        simp only [List.getElem?_cons_succ, List.drop_succ_cons] at h ⊢
        exact ih k h

theorem escapeChars_plain (cs : List Char)
    (h : ∀ c ∈ cs, c ≠ '&' ∧ c ≠ '<' ∧ c ≠ '>' ∧ c ≠ Char.ofNat 34 ∧ c ≠ Char.ofNat 39) :
    escapeChars cs = cs := by
  induction cs with
  | nil => rfl
  | cons x xs ih =>
    have hx := h x (List.mem_cons_self x xs)
    have hnone : escapeMap x = none := by
      simp [escapeMap, hx.1, hx.2.1, hx.2.2.1, hx.2.2.2.1, hx.2.2.2.2]
    rw [escapeChars_of_plain x xs hnone, ih (fun c hc => h c (List.mem_cons_of_mem x hc))]

/-- C10: the result of `escapeHtml` contains no `<`, `>`, double quote or
apostrophe; at every position where it has an `&`, one of the five entities
`&amp;` `&lt;` `&gt;` `&quot;` `&#039;` starts; a text with none of the five
special characters is returned unchanged. -/
theorem escapeHtml_output (text : String) :
    (∀ c ∈ (escapeHtml text).data,
      c ≠ '<' ∧ c ≠ '>' ∧ c ≠ Char.ofNat 34 ∧ c ≠ Char.ofNat 39) ∧
    (∀ i, (escapeHtml text).data[i]? = some '&' →
      ∃ e ∈ entities, e.data <+: (escapeHtml text).data.drop i) ∧
    ((∀ c ∈ text.data,
        c ≠ '&' ∧ c ≠ '<' ∧ c ≠ '>' ∧ c ≠ Char.ofNat 34 ∧ c ≠ Char.ofNat 39) →
      escapeHtml text = text) := by
  refine ⟨escapeChars_no_markup text.data, escapeChars_amp_entity text.data, ?_⟩
  intro h
  unfold escapeHtml
  rw [escapeChars_plain text.data h]

/-- Witness of C10: a text with all five special characters and a plain text. -/
theorem escapeHtml_output_witness :
    escapeHtml "<a href=\"x\">Tom & Jerry's</a>"
      = "&lt;a href=&quot;x&quot;&gt;Tom &amp; Jerry&#039;s&lt;/a&gt;" ∧
    (∃ e ∈ entities,
      e.data <+: (escapeHtml "<a href=\"x\">Tom & Jerry's</a>").data.drop 0) ∧
    escapeHtml "Buy milk" = "Buy milk" :=
  ⟨by decide,
   (escapeHtml_output "<a href=\"x\">Tom & Jerry's</a>").2.1 0 (by decide),
   (escapeHtml_output "Buy milk").2.2 (by decide)⟩

end TodoList
